import Mathlib

/-!
# Verification of the `enigma` repository

Shallow embedding of `src/enigma/enigma.py`, `src/enigma/utils.py` and
`src/enigma/bombe.py`, together with proofs and refutations of the frozen
claims about them.

Conventions used throughout the embedding:

* Python strings over the alphabet are modelled as `List Char`.
* Python integers are modelled as `Int`; Python's `%` with a positive modulus
  agrees with `Int.emod` (both return a representative in `[0, modulus)`), so
  `x % 26` in the source is written `x % 26` on `Int` here.
* Python list indexing `l[i]` (always in range in the modelled code paths;
  Python raises `IndexError` otherwise) is modelled with `List.getD`.
* Python dictionaries (insertion ordered) are modelled as association lists;
  an update of an existing key keeps its position, a new key is appended —
  exactly Python's semantics.
* Mutating methods are modelled as functions returning the updated object.
-/

/-- Python `ALPHABET = 'ABCDEFGHIJKLMNOPQRSTUVWXYZ'` from `enigma.py`. -/
def ALPHABET : List Char :=
  ['A','B','C','D','E','F','G','H','I','J','K','L','M',
   'N','O','P','Q','R','S','T','U','V','W','X','Y','Z']

/-- Python `N = len(ALPHABET)` from `enigma.py`. -/
def N : Int := 26

/-- Python `ALPHABET.index(letter)`.  All modelled call sites pass letters `A`–`Z`
(Python raises `ValueError` otherwise). -/
def alphaIndex (letter : Char) : Int :=
  (ALPHABET.indexOf letter : Nat)

/-- Python `ALPHABET[i]` for `0 ≤ i < 26` (Python raises `IndexError` otherwise). -/
def alphaChar (i : Int) : Char :=
  ALPHABET.getD i.toNat 'A'

/-- Python `Reflector` from `enigma.py`: a name and the pin permutation derived from
the 26-letter `reflections` string. -/
structure Reflector where
  name : String
  reflections : List Int
  deriving Repr, DecidableEq

/-- Python `Reflector.__init__`: `reflections = [ALPHABET.index(letter) for letter in reflections]`. -/
def mkReflector (name : String) (reflections : List Char) : Reflector :=
  { name := name, reflections := reflections.map alphaIndex }

/-- Python `Reflector.reflect`: `return self.reflections[pin_in]`. -/
def Reflector.reflect (r : Reflector) (pin_in : Int) : Int :=
  r.reflections.getD pin_in.toNat 0

/-- Python `Reflector.copy`: rebuild from the letters of the stored permutation. -/
def Reflector.copy (r : Reflector) : Reflector :=
  mkReflector r.name (r.reflections.map alphaChar)

/-- Python `Rotor` from `enigma.py`.  `letters` and `turnover_letters` are the
constructor strings (kept, as in the source, for `copy`); the remaining
fields are the derived wiring and the mutable configuration state. -/
structure Rotor where
  name : String
  letters : List Char
  turnover_letters : List Char
  wiring : List Int
  wiring_inverse : List Int
  turnovers : List Int
  ring_setting : Int
  offset : Int
  position : Int
  deriving Repr, DecidableEq

instance : Inhabited Rotor :=
  ⟨{ name := "", letters := [], turnover_letters := [], wiring := [],
     wiring_inverse := [], turnovers := [], ring_setting := 0, offset := 0,
     position := 0 }⟩

/-- Python `Rotor.__init__`.  `wiring` indexes the letters in `ALPHABET`;
`wiring_inverse = [self.wiring.index(pin_out) for pin_out in range(N)]`. -/
def mkRotor (name : String) (letters : List Char) (turnovers : List Char) : Rotor :=
  let wiring := letters.map alphaIndex
  { name := name
    letters := letters
    turnover_letters := turnovers
    wiring := wiring
    wiring_inverse := (List.range 26).map fun pin_out => ((wiring.indexOf (pin_out : Int) : Nat) : Int)
    turnovers := turnovers.map alphaIndex
    ring_setting := 0
    offset := 0
    position := 0 }

/-- Python `Rotor.configure`: sets `ring_setting`, `offset` and
`position = (ring_setting - offset) % N`.  All modelled call sites pass
letters `A`–`Z` (the source's `except ValueError` branch exits the program). -/
def Rotor.configure (r : Rotor) (ring_setting_letter offset_letter : Char) : Rotor :=
  let rs := alphaIndex ring_setting_letter
  let off := alphaIndex offset_letter
  { r with ring_setting := rs, offset := off, position := (rs - off) % N }

/-- Python `Rotor.step`: `self.position = (self.position + 1) % N`. -/
def Rotor.step (r : Rotor) : Rotor :=
  { r with position := (r.position + 1) % N }

/-- Python `Rotor.unstep`: `self.position = (self.position - 1) % N`. -/
def Rotor.unstep (r : Rotor) : Rotor :=
  { r with position := (r.position - 1) % N }

/-- Python `Rotor.turnover` property: `self.position in self.turnovers`. -/
def Rotor.turnover (r : Rotor) : Bool :=
  r.turnovers.contains r.position

/-- Python `Rotor.did_turnover` property: `(self.position - 1) % N in self.turnovers`. -/
def Rotor.did_turnover (r : Rotor) : Bool :=
  r.turnovers.contains ((r.position - 1) % N)

/-- Python `Rotor.signal_forward`.  The method assigns no attribute, so the rotor
state it returns is the receiver unchanged; the second component is the
returned signal. -/
def Rotor.signal_forward (r : Rotor) (sig_in : Int) : Rotor × Int :=
  let pin_in := (sig_in + r.position) % N
  let pin_out := r.wiring.getD pin_in.toNat 0
  let sig_out := (pin_out - r.position) % N
  (r, sig_out)

/-- Python `Rotor.signal_backward`: as `signal_forward` but through `wiring_inverse`. -/
def Rotor.signal_backward (r : Rotor) (sig_in : Int) : Rotor × Int :=
  let pin_in := (sig_in + r.position) % N
  let pin_out := r.wiring_inverse.getD pin_in.toNat 0
  let sig_out := (pin_out - r.position) % N
  (r, sig_out)

/-- Python `Rotor.copy`: rebuilds the rotor from its constructor strings and
re-runs `configure` with the stored ring setting and offset — so the copy's
`position` is `(ring_setting - offset) % N`, not the receiver's current
`position`. -/
def Rotor.copy (r : Rotor) : Rotor :=
  (mkRotor r.name r.letters r.turnover_letters).configure
    (alphaChar r.ring_setting) (alphaChar r.offset)

/-- The rotors of the source's `ROTORS` table. -/
def rotorI : Rotor := mkRotor "I" "EKMFLGDQVZNTOWYHXUSPAIBRCJ".toList "Q".toList

def rotorII : Rotor := mkRotor "II" "AJDKSIRUXBLHWTMCQGZNPYFVOE".toList "E".toList

def rotorIII : Rotor := mkRotor "III" "BDFHJLCPRTXVZNYEIWGAKMUSQO".toList "V".toList

def rotorIV : Rotor := mkRotor "IV" "ESOVPZJAYQUIRHXLNFTGKDCMWB".toList "J".toList

def rotorV : Rotor := mkRotor "V" "VZBRGITYUPSDNHLXAWMJQOFECK".toList "Z".toList

/-- The source's `REFLECTORS['B']`. -/
def reflectorB : Reflector := mkReflector "B" "YRUHQSLDPXNGOKMIEBFZCWVJAT".toList

/-- Insertion-ordered dictionary update for `Int`-keyed dictionaries:
an existing key keeps its position, a new key is appended (Python `d[k] = v`). -/
def pbSet : List (Int × Int) → Int → Int → List (Int × Int)
  | [], k, v => [(k, v)]
  | e :: rest, k, v => if e.1 = k then (k, v) :: rest else e :: pbSet rest k v

/-- Python `d[k]` on an `Int`-keyed dictionary.  All modelled call sites have the
key present (Python raises `KeyError` otherwise). -/
def pbLookup : List (Int × Int) → Int → Int
  | [], _ => 0
  | e :: rest, k => if e.1 = k then e.2 else pbLookup rest k

/-- Python `k in d` on an `Int`-keyed dictionary. -/
def pbMem (d : List (Int × Int)) (k : Int) : Bool :=
  d.any fun e => e.1 = k

/-- Python's `==` between an `int` and a letter pair: an int never equals a
tuple (or string) in Python, so this is `false` for every input.  It models
the element comparisons of `a in plugboard_pairs` in
`EnigmaMachine.configure`, where `a` is an int and `plugboard_pairs` is the
method's list-of-letter-pairs argument. -/
def pyEqIntPair (_ : Int) (_ : Char × Char) : Bool := false

/-- Python `EnigmaMachine` state after `configure`: rotors (fastest first), the
reflector, the installed plugboard dictionary over `[0, 26)`, and the rotor
snapshot taken for `reset`. -/
structure EnigmaMachine where
  rotors : List Rotor
  reflector : Reflector
  plugboard_pairs : List (Int × Int)
  initial_rotors : List Rotor
  deriving Repr, DecidableEq

/-- Python `EnigmaMachine.configure`.  Walks the letter pairs building the plugboard
dictionary; the duplicate test is Python's `a in plugboard_pairs or b in
plugboard_pairs`, which compares the int `a` (resp. `b`) against the letter
pairs of the *argument list* and is therefore never true; the self-pair test
`a == b` raises `ValueError`.  Unsteckered letters are then mapped to
themselves and the rotors are copied into `initial_rotors`. -/
def EnigmaMachine.configure (rotors : List Rotor) (reflector : Reflector)
    (plugboard_pairs : List (Char × Char)) : Except String EnigmaMachine := do
  let d ← plugboard_pairs.foldlM (fun d ab => do
    let a := alphaIndex ab.1
    let b := alphaIndex ab.2
    if plugboard_pairs.any (pyEqIntPair a) || plugboard_pairs.any (pyEqIntPair b) then
      throw "You've entered duplicate values for the plugboard pairs"
    else if a = b then
      throw "Plugboard cannot connect a letter to itself"
    else
      pure (pbSet (pbSet d a b) b a)) ([] : List (Int × Int))
  let d := (List.range 26).foldl
    (fun d i => if pbMem d (i : Int) then d else pbSet d (i : Int) (i : Int)) d
  pure { rotors := rotors
         reflector := reflector
         plugboard_pairs := d
         initial_rotors := rotors.map Rotor.copy }

/-- Fixture helper: extract the machine from a `configure` call that
validates (all fixtures in this file do). -/
def mkMachine (rotors : List Rotor) (reflector : Reflector)
    (plugboard_pairs : List (Char × Char)) : EnigmaMachine :=
  match EnigmaMachine.configure rotors reflector plugboard_pairs with
  | .ok m => m
  | .error _ =>
      { rotors := [], reflector := reflector, plugboard_pairs := [], initial_rotors := [] }

/-- Python's `range(start, stop, -1)` on naturals: `start, start-1, ...,
stop+1` (empty when `start ≤ stop`).  Structural recursion on `start`. -/
def pyRangeDown : Nat → Nat → List Nat
  | 0, _ => []
  | start + 1, stop =>
      if stop < start + 1 then (start + 1) :: pyRangeDown start stop else []

/-- Python `EnigmaMachine.step`.  Note the middle-rotor loop is
`range(len(self.rotors) - 2, 1, -1)`, which is empty for a three-rotor
machine. -/
def EnigmaMachine.step (m : EnigmaMachine) : EnigmaMachine :=
  let rotors := m.rotors
  let n := rotors.length
  let rotors :=
    if (rotors.getD (n - 2) default).turnover then
      rotors.set (n - 1) (rotors.getD (n - 1) default).step
    else rotors
  let rotors := (pyRangeDown (n - 2) 1).foldl
    (fun rs r =>
      if (rs.getD (r - 1) default).turnover || (rs.getD r default).turnover then
        rs.set r (rs.getD r default).step
      else rs) rotors
  let rotors := rotors.set 0 (rotors.getD 0 default).step
  { m with rotors := rotors }

/-- Python `EnigmaMachine.unstep`.  Note the middle-rotor loop is
`range(1, len(self.rotors) - 2, -1)`, which is empty for every machine with
at least three rotors. -/
def EnigmaMachine.unstep (m : EnigmaMachine) : EnigmaMachine :=
  let rotors := m.rotors
  let n := rotors.length
  let rotors := rotors.set 0 (rotors.getD 0 default).unstep
  let rotors := (pyRangeDown 1 (n - 2)).foldl
    (fun rs r =>
      if (rs.getD (r - 1) default).turnover || (rs.getD r default).did_turnover then
        rs.set r (rs.getD r default).unstep
      else rs) rotors
  let rotors :=
    if (rotors.getD (n - 2) default).turnover then
      rotors.set (n - 1) (rotors.getD (n - 1) default).unstep
    else rotors
  { m with rotors := rotors }

/-- Performs `n` successive `step()` calls. -/
def stepN : Nat → EnigmaMachine → EnigmaMachine
  | 0, m => m
  | n + 1, m => (stepN n m).step

/-- Performs `n` successive `unstep()` calls. -/
def unstepN : Nat → EnigmaMachine → EnigmaMachine
  | 0, m => m
  | n + 1, m => unstepN n m.unstep

/-- Python `EnigmaMachine.encrypt_lettercode`: forward through the rotors in order,
reflect, backward through the rotors in reverse order. -/
def EnigmaMachine.encrypt_lettercode (m : EnigmaMachine) (lettercode : Int) : Int :=
  let c := m.rotors.foldl (fun c rotor => (rotor.signal_forward c).2) lettercode
  let c := m.reflector.reflect c
  m.rotors.reverse.foldl (fun c rotor => (rotor.signal_backward c).2) c

/-- Python `EnigmaMachine.encrypt`.  For each letter: `step()`, plugboard, rotor
pass, plugboard.  The machine is threaded through because `step` mutates it. -/
def EnigmaMachine.encrypt (m : EnigmaMachine) (plaintext : List Char) :
    EnigmaMachine × List Char :=
  plaintext.foldl
    (fun acc letter =>
      let lettercode := alphaIndex letter.toUpper
      let m := acc.1.step
      let lettercode := pbLookup m.plugboard_pairs lettercode
      let lettercode := m.encrypt_lettercode lettercode
      let lettercode := pbLookup m.plugboard_pairs lettercode
      (m, acc.2 ++ [alphaChar lettercode]))
    (m, [])

/-- Python `EnigmaMachine.reset`: `self.rotors = [r.copy() for r in self.initial_rotors]`. -/
def EnigmaMachine.reset (m : EnigmaMachine) : EnigmaMachine :=
  { m with rotors := m.initial_rotors.map Rotor.copy }

/-- Python `EnigmaMachine.copy` calls
`machine.configure(self.rotors, self.reflector, self.plugboard_pairs)`, but
`self.plugboard_pairs` is the installed `int -> int` dictionary: `configure`'s
loop `for letter_a, letter_b in plugboard_pairs` then iterates the dict's
`int` keys (after any successful `configure` the dict holds all 26 of them)
and fails to unpack an int into two letters, so every call raises
`TypeError`.  The embedding records that unconditional failure. -/
def EnigmaMachine.copy (_ : EnigmaMachine) : Except String EnigmaMachine :=
  .error "TypeError: cannot unpack non-iterable int object"

/-- Python `is_crib_position` from `utils.py`: the crib fits at `position` and no
crib letter equals the ciphertext letter it aligns with. -/
def is_crib_position (crib ciphertext : List Char) (position : Nat) : Bool :=
  if position + crib.length > ciphertext.length then false
  else (crib.zip ((ciphertext.drop position).take crib.length)).all
    fun ab => ab.1 != ab.2

/-- Python `find_crib_positions` from `utils.py`: note the loop is
`range(len(ciphertext) - len(crib))`, whose upper end is exclusive. -/
def find_crib_positions (crib ciphertext : List Char) : List Nat :=
  (List.range (ciphertext.length - crib.length)).filter
    fun position => is_crib_position crib ciphertext position

/-- The decidable form of the condition C6 states `find_crib_positions`
returns: `0 ≤ p ≤ len(ciphertext) - len(crib)` and `crib[i] ≠ ciphertext[p+i]`
for all `i` (this is also `is_crib_position`'s own test, including the
boundary index). -/
def crib_position_spec (crib ciphertext : List Char) (p : Nat) : Prop :=
  p + crib.length ≤ ciphertext.length ∧
    ∀ i < crib.length, crib.getD i 'A' ≠ ciphertext.getD (p + i) 'A'

/-- Insertion-ordered dictionary update for `Char`-keyed dictionaries. -/
def cdictSet {β : Type} : List (Char × β) → Char → β → List (Char × β)
  | [], k, v => [(k, v)]
  | e :: rest, k, v => if e.1 = k then (k, v) :: rest else e :: cdictSet rest k v

/-- Python `d.get(k, dflt)` / `d[k]` on a `Char`-keyed dictionary. -/
def cdictGetD {β : Type} : List (Char × β) → Char → β → β
  | [], _, dflt => dflt
  | e :: rest, k, dflt => if e.1 = k then e.2 else cdictGetD rest k dflt

/-- Python `k in d` on a `Char`-keyed dictionary. -/
def cdictMem {β : Type} (d : List (Char × β)) (k : Char) : Bool :=
  d.any fun e => e.1 = k

/-- The menu built by `create_menu`: the nested letter-to-letter-to-offsets
dictionary, plus the `'input'` entry (the source stores the input letter in
the same dictionary under the string key `'input'`; the design notes of the
spec separate the two, as done here). -/
structure Menu where
  adj : List (Char × List (Char × List Nat))
  input : Char
  deriving Repr, DecidableEq

/-- Python `menu[letter]` in `utils.py`/`bombe.py`: the menu is a
`defaultdict(dict)`, so a missing letter yields the empty dictionary. -/
def Menu.connections (menu : Menu) (letter : Char) : List (Char × List Nat) :=
  cdictGetD menu.adj letter []

/-- One `menu[a][b] = menu[a].get(b, []) + [pos]` update. -/
def menuAdd (adj : List (Char × List (Char × List Nat))) (a b : Char) (pos : Nat) :
    List (Char × List (Char × List Nat)) :=
  let da := cdictGetD adj a []
  cdictSet adj a (cdictSet da b (cdictGetD da b [] ++ [pos]))

/-- Python `create_menu` from `utils.py`. -/
def create_menu (crib ciphertext : List Char) (position : Nat) : Menu :=
  let triplets :=
    (crib.zip ((ciphertext.drop position).take crib.length)).zip
      (List.range crib.length)
  let adj := triplets.foldl
    (fun adj t =>
      let a := t.1.1
      let b := t.1.2
      let pos := t.2
      menuAdd (menuAdd adj a b pos) b a pos)
    []
  { adj := adj, input := crib.headD 'A' }

/-- Python `set(xs) == set(ys)` for letter strings. -/
def sameSet (xs ys : List Char) : Bool :=
  xs.all ys.contains && ys.all xs.contains

/-- Python `find_paths_dfs` from `utils.py`.  The source recursion always
terminates (it only recurses on letters not yet in the path, and the menu
has finitely many letters); the embedding carries a fuel bound for Lean's
termination checker, and every use in this file supplies fuel larger than
the number of distinct letters, so the `0` branch is never taken.  The
source's `path_node_sets` stores `set(path)` values compared with set
equality; the embedding stores the paths and compares with `sameSet`.
`back_connection` is the source's `connection == current_path`: a one-letter
string compared with the whole path. -/
def find_paths_dfs (menu : Menu) : Nat → List Char → List (List Char)
  | 0, _ => []
  | fuel + 1, cp =>
    let current_path := if cp = [] then [menu.input] else cp
    let current_node := current_path.getLastD 'A'
    let res := (menu.connections current_node).foldl
      (fun (acc : List (List Char) × List (List Char)) conn =>
        let connection := conn.1
        let back_connection :=
          if current_path.length ≥ 2 then [connection] == current_path else false
        if current_path.contains connection && !back_connection then
          let path := current_path ++ [connection]
          if acc.2.any (fun s => sameSet s path) then acc
          else (acc.1 ++ [path], acc.2 ++ [path])
        else if !back_connection then
          let path := current_path ++ [connection]
          (find_paths_dfs menu fuel path).foldl
            (fun (acc2 : List (List Char) × List (List Char)) new_path =>
              if acc2.2.any (fun s => sameSet s new_path) then acc2
              else (acc2.1 ++ [new_path], acc2.2 ++ [new_path]))
            acc
        else acc)
      ([], [])
    res.1

/-- A path ends with a degenerate two-step `x, y, x`: its last letter equals
its third-to-last. -/
def endsDegenerate (p : List Char) : Bool :=
  match p.reverse with
  | x :: _ :: y :: _ => x == y
  | _ => false

/-- Python `set.add` on a set modelled as a duplicate-free list. -/
def setAdd (s : List Char) (c : Char) : List Char :=
  if s.contains c then s else s ++ [c]

/-- Python `Bombe.add_contradiction`: record `letter_cipher` against `letter` and
vice versa in the contradictions dictionary. -/
def add_contradiction (ct : List (Char × List Char)) (letter letter_cipher : Char) :
    List (Char × List Char) :=
  let ct :=
    if !cdictMem ct letter then cdictSet ct letter [letter_cipher]
    else cdictSet ct letter (setAdd (cdictGetD ct letter []) letter_cipher)
  if !cdictMem ct letter_cipher then cdictSet ct letter_cipher [letter]
  else cdictSet ct letter_cipher (setAdd (cdictGetD ct letter_cipher []) letter)

/-- A canonical candidate plugboard: the `set(pair)` values of `Bombe.run`'s
canonicalisation step in discovery order.  A Python two-element set iterates
in an unspecified order, so the unordered pair is represented sorted. -/
def canonPair (p : Char × Char) : Char × Char :=
  if p.2 < p.1 then (p.2, p.1) else p

/-- Python `rotor_offset_combinations`: `''.join(prod) for prod in
product(ALPHABET, repeat=3)`, in `itertools.product` order. -/
def rotor_offset_combinations : List (List Char) :=
  ALPHABET.flatMap fun a => ALPHABET.flatMap fun b => ALPHABET.map fun c => [a, b, c]

/-- The per-plugboard-guess state threaded through `Bombe.run`'s path walk:
the (mutated) machine, the per-offsets `self.contradictions`, the hypothesis
dictionary `plugboard`, the `plugboard_possible` flag, and whether the
current path's inner loop has been left with `break`. -/
structure GuessState where
  machine : EnigmaMachine
  contradictions : List (Char × List Char)
  plugboard : List (Char × Char)
  plugboard_possible : Bool
  broke : Bool
  deriving Repr

/-- One iteration of `Bombe.run`'s inner loop `for i in range(len(path) - 1)`
(a no-op once the loop was left with `break`). -/
def bombeEdgeStep (menu : Menu) (path : List Char) (st : GuessState) (i : Nat) :
    GuessState :=
  if st.broke then st else
  let letter := path.getD i 'A'
  let letter_connections := menu.connections letter
  let letter_cipher := path.getD (i + 1) 'A'
  let letter_cipher_positions := cdictGetD letter_connections letter_cipher []
  let cipher_offset := letter_cipher_positions.headD 0
  let machine := st.machine.reset
  let machine := stepN cipher_offset machine
  if cdictMem st.plugboard letter && st.plugboard_possible then
    let plug_letter := cdictGetD st.plugboard letter 'A'
    let enc := machine.encrypt [plug_letter]
    let machine := enc.1
    let plug_letter_cipher := enc.2.headD 'A'
    let hit :=
      cdictMem st.contradictions letter_cipher &&
        (cdictGetD st.contradictions letter_cipher []).contains plug_letter_cipher
    if hit then
      let ct := st.plugboard.foldl
        (fun ct plug => add_contradiction ct plug.1 plug.2) st.contradictions
      { machine := machine, contradictions := ct, plugboard := st.plugboard,
        plugboard_possible := false, broke := true }
    else if cdictMem st.plugboard letter_cipher then
      if cdictGetD st.plugboard letter_cipher 'A' == plug_letter_cipher then
        { st with machine := machine, broke := true }
      else
        let ct := add_contradiction st.contradictions letter_cipher plug_letter_cipher
        let ct := st.plugboard.foldl
          (fun ct plug => add_contradiction ct plug.1 plug.2) ct
        { machine := machine, contradictions := ct, plugboard := st.plugboard,
          plugboard_possible := false, broke := true }
    else
      let pb := cdictSet st.plugboard letter_cipher plug_letter_cipher
      let pb := cdictSet pb plug_letter_cipher letter_cipher
      { st with machine := machine, plugboard := pb }
  else
    { st with machine := machine }

/-- One iteration of `Bombe.run`'s `for path in menu_paths` loop; once
`plugboard_possible` is false the remaining paths are skipped (the source's
outer `break`). -/
def bombePathStep (menu : Menu) (st : GuessState) (path : List Char) : GuessState :=
  if !st.plugboard_possible then st
  else
    (List.range (path.length - 1)).foldl (bombeEdgeStep menu path)
      { st with broke := false }

/-- The per-rotor-offsets state of `Bombe.run`: machine, `self.contradictions`
and the accumulated `possibilities` mapping. -/
structure CellState where
  machine : EnigmaMachine
  contradictions : List (Char × List Char)
  poss : List (List (Char × Char) × List (List Char))
  deriving Repr

/-- Python `possibilities[key].append(rotor_offsets)` on the `defaultdict(list)`. -/
def possAppend :
    List (List (Char × Char) × List (List Char)) → List (Char × Char) → List Char →
      List (List (Char × Char) × List (List Char))
  | [], k, v => [(k, [v])]
  | e :: rest, k, v =>
      if e.1 = k then (e.1, e.2 ++ [v]) :: rest else e :: possAppend rest k v

/-- Python `possibilities[key]` (empty for an absent key, as in `defaultdict(list)`). -/
def possLookup :
    List (List (Char × Char) × List (List Char)) → List (Char × Char) → List (List Char)
  | [], _ => []
  | e :: rest, k => if e.1 = k then e.2 else possLookup rest k

/-- One iteration of `Bombe.run`'s `for guess in ALPHABET` loop: seed the
plugboard hypothesis on the menu's input letter, walk all paths, and on
survival canonicalise the plugboard and record the rotor offsets under it. -/
def bombeGuessStep (menu : Menu) (menu_paths : List (List Char))
    (rotor_offsets : List Char) (cst : CellState) (guess : Char) : CellState :=
  let plugboard := cdictSet (cdictSet [] menu.input guess) guess menu.input
  let st := menu_paths.foldl (bombePathStep menu)
    { machine := cst.machine, contradictions := cst.contradictions,
      plugboard := plugboard, plugboard_possible := true, broke := false }
  let poss :=
    if st.plugboard_possible then
      let plugboard_pairs := st.plugboard.foldl
        (fun (ps : List (Char × Char)) pair =>
          if ps.contains (canonPair pair) || pair.1 = pair.2 then ps
          else ps ++ [canonPair pair])
        []
      possAppend cst.poss plugboard_pairs rotor_offsets
    else cst.poss
  { machine := st.machine, contradictions := st.contradictions, poss := poss }

/-- One iteration of `Bombe.run`'s outer `for rotor_offsets in
rotor_offset_combinations` loop: reconfigure each rotor with
`(self.ring_settings[r], rotor_offsets[r])`, clear `self.contradictions`,
and try all 26 plugboard guesses. -/
def bombeCell (ring_settings : List Char) (menu : Menu) (menu_paths : List (List Char))
    (acc : EnigmaMachine × List (List (Char × Char) × List (List Char)))
    (rotor_offsets : List Char) :
    EnigmaMachine × List (List (Char × Char) × List (List Char)) :=
  let machine :=
    { acc.1 with
      rotors := acc.1.rotors.mapIdx fun r rotor =>
        rotor.configure (ring_settings.getD r 'A') (rotor_offsets.getD r 'A') }
  let cst := ALPHABET.foldl (bombeGuessStep menu menu_paths rotor_offsets)
    { machine := machine, contradictions := [], poss := acc.2 }
  (cst.machine, cst.poss)

/-- Python `Bombe.run` from `bombe.py`: the machine given to `Bombe.__init__`
together with the ring settings, swept over all rotor-offset triples.  The
first component is the machine in its final mutated state; the second is the
returned `possibilities` mapping. -/
def Bombe.run (machine : EnigmaMachine) (ring_settings : List Char) (menu : Menu)
    (menu_paths : List (List Char)) :
    EnigmaMachine × List (List (Char × Char) × List (List Char)) :=
  rotor_offset_combinations.foldl (bombeCell ring_settings menu menu_paths)
    (machine, [])

/-- Modelled from claim C3's soundness property: the machine configured with
the Bombe's ring settings, a candidate start triple and a candidate
plugboard (via the machine's own `configure`). -/
def candidateMachine (machine : EnigmaMachine) (ring_settings triple : List Char)
    (plugboard : List (Char × Char)) : EnigmaMachine :=
  mkMachine
    (machine.rotors.mapIdx fun r rotor =>
      rotor.configure (ring_settings.getD r 'A') (triple.getD r 'A'))
    machine.reflector plugboard

/-- Modelled from claim C3: letter `a` encrypted at the rotor state reached
after `off + 1` key-press steps from the start yields `b` (the machine's
`encrypt` performs the final key-press step itself). -/
def edgeDecrypts (m : EnigmaMachine) (a b : Char) (off : Nat) : Prop :=
  ((stepN off m).encrypt [a]).2 = [b]

/-- Python `a` and `b` are joined at offset `off` in the menu. -/
def menuHasEdge (menu : Menu) (a b : Char) (off : Nat) : Prop :=
  off ∈ cdictGetD (menu.connections a) b []

/-- Claim C3 as stated: every plugboard candidate of `Bombe.run`, together
with each start triple recorded under it, makes every menu edge decrypt
correctly. -/
def BombeRunSound (machine : EnigmaMachine) (ring_settings : List Char) (menu : Menu)
    (menu_paths : List (List Char)) : Prop :=
  ∀ K t, t ∈ possLookup (Bombe.run machine ring_settings menu menu_paths).2 K →
    ∀ a b off, menuHasEdge menu a b off →
      edgeDecrypts (candidateMachine machine ring_settings t K) a b off

/-- The per-letter encryption of `EnigmaMachine.encrypt` at a fixed machine
state: plugboard, rotor/reflector pass, plugboard — with no stepping, as in
claim C4 (which holds the state fixed). -/
def encrypt1 (m : EnigmaMachine) (c : Int) : Int :=
  pbLookup m.plugboard_pairs (m.encrypt_lettercode (pbLookup m.plugboard_pairs c))

/-- Data-model invariant of a rotor (spec §3): `wiring` and `wiring_inverse`
are mutually inverse permutations of `[0, 26)`.  `Rotor.__init__` establishes
this whenever its `letters` argument is a permutation of the alphabet (it
raises `ValueError` while building `wiring_inverse` otherwise). -/
def Rotor.Perm26 (r : Rotor) : Prop :=
  (∀ i : Nat, i < 26 → 0 ≤ r.wiring.getD i 0 ∧ r.wiring.getD i 0 < 26) ∧
  (∀ i : Nat, i < 26 → 0 ≤ r.wiring_inverse.getD i 0 ∧ r.wiring_inverse.getD i 0 < 26) ∧
  (∀ i : Nat, i < 26 → r.wiring_inverse.getD (r.wiring.getD i 0).toNat 0 = (i : Int)) ∧
  (∀ i : Nat, i < 26 → r.wiring.getD (r.wiring_inverse.getD i 0).toNat 0 = (i : Int))

instance (r : Rotor) : Decidable r.Perm26 := by
  unfold Rotor.Perm26; infer_instance

/-- Data-model invariant of a reflector (spec §3): an involution of `[0, 26)`
with no fixed point. -/
def Reflector.Valid (rf : Reflector) : Prop :=
  (∀ i : Nat, i < 26 → 0 ≤ rf.reflections.getD i 0 ∧ rf.reflections.getD i 0 < 26) ∧
  (∀ i : Nat, i < 26 → rf.reflections.getD (rf.reflections.getD i 0).toNat 0 = (i : Int)) ∧
  (∀ i : Nat, i < 26 → rf.reflections.getD i 0 ≠ (i : Int))

instance (rf : Reflector) : Decidable rf.Valid := by
  unfold Reflector.Valid; infer_instance

/-- Data-model invariant of an installed plugboard (spec §3): an involution
of `[0, 26)`. -/
def PlugboardInvolution (pb : List (Int × Int)) : Prop :=
  ∀ i : Nat, i < 26 →
    0 ≤ pbLookup pb (i : Int) ∧ pbLookup pb (i : Int) < 26 ∧
      pbLookup pb (pbLookup pb (i : Int)) = (i : Int)

instance (pb : List (Int × Int)) : Decidable (PlugboardInvolution pb) := by
  unfold PlugboardInvolution; infer_instance

/-- A configured machine state in the sense of the spec's data model:
all rotor wirings are permutations, the reflector is a fixed-point-free
involution, and the plugboard is an involution. -/
def EnigmaMachine.Valid (m : EnigmaMachine) : Prop :=
  (∀ r ∈ m.rotors, r.Perm26) ∧ m.reflector.Valid ∧ PlugboardInvolution m.plugboard_pairs

instance (m : EnigmaMachine) : Decidable m.Valid := by
  unfold EnigmaMachine.Valid; infer_instance

instance (m : EnigmaMachine) (a b : Char) (off : Nat) :
    Decidable (edgeDecrypts m a b off) := by
  unfold edgeDecrypts; infer_instance

instance (menu : Menu) (a b : Char) (off : Nat) :
    Decidable (menuHasEdge menu a b off) := by
  unfold menuHasEdge; infer_instance

instance (crib ciphertext : List Char) (p : Nat) :
    Decidable (crib_position_spec crib ciphertext p) := by
  unfold crib_position_spec; infer_instance

/-- Fixture: rotors I, II, III (ring `A`, offset `A`, so every position is
`0`), reflector B, empty plugboard — the search driver's template machine. -/
def machineAAA : EnigmaMachine := mkMachine [rotorI, rotorII, rotorIII] reflectorB []

/-- Fixture: as `machineAAA` but the middle rotor is configured with offset
`W`, placing its position at `4` — the index of its notch letter `E`. -/
def machineNotch : EnigmaMachine :=
  mkMachine [rotorI.configure 'A' 'A', rotorII.configure 'A' 'W', rotorIII.configure 'A' 'A']
    reflectorB []

/-- Fixture: the menu of crib `"AB"` placed at position 0 of ciphertext
`"BAX"` (a valid crib position): a single undirected edge A–B. -/
def menuAB : Menu := create_menu ['A', 'B'] ['B', 'A', 'X'] 0

/-- Fixture: the menu of crib `"ABC"` placed at position 0 of ciphertext
`"BCAX"` (a valid crib position): the triangle A–B (offset 0), B–C (offset
1), C–A (offset 2). -/
def menuABC : Menu := create_menu ['A', 'B', 'C'] ['B', 'C', 'A', 'X'] 0

/-- Fixture: the paths `find_paths_dfs` enumerates on `menuABC`
(they evaluate to `ABA`, `ABCB`, `ACA`). -/
def pathsABC : List (List Char) := find_paths_dfs menuABC 30 []

/-- The plugboard candidate `Bombe.run` records for guess `A` in the
`menuABC` fixture. -/
def plugKey0 : List (Char × Char) := [('B', 'F'), ('C', 'Z')]

set_option maxRecDepth 100000

/-- C10: `Rotor.step`, `Rotor.unstep`, `Rotor.signal_forward` and
`Rotor.signal_backward` modify no rotor field other than `position`
(`wiring`, `wiring_inverse`, `turnovers`, `ring_setting` and `offset` are
unchanged by all four), and the two signal operations leave the whole rotor
state — in particular `position` — unchanged. -/
theorem rotor_ops_touch_only_position (r : Rotor) (s : Int) :
    r.step.wiring = r.wiring ∧ r.step.wiring_inverse = r.wiring_inverse ∧
    r.step.turnovers = r.turnovers ∧ r.step.ring_setting = r.ring_setting ∧
    r.step.offset = r.offset ∧
    r.unstep.wiring = r.wiring ∧ r.unstep.wiring_inverse = r.wiring_inverse ∧
    r.unstep.turnovers = r.turnovers ∧ r.unstep.ring_setting = r.ring_setting ∧
    r.unstep.offset = r.offset ∧
    (r.signal_forward s).1 = r ∧ (r.signal_backward s).1 = r :=
  ⟨rfl, rfl, rfl, rfl, rfl, rfl, rfl, rfl, rfl, rfl, rfl, rfl⟩

/-- C1 (claim refuted by the code): with rotors I, II, III and the middle
rotor at its notch (`machineNotch`, middle position 4 = notch `E`), one
`step()` leaves the middle rotor unmoved, and after three `step()` calls
the middle rotor has not advanced at all while the leftmost rotor has
advanced three times (the claim requires middle +2 and leftmost +1):
`step`'s middle-rotor loop `range(len(self.rotors) - 2, 1, -1)` is
`range(1, 1, -1)`, the empty range, for a three-rotor machine. -/
theorem step_never_advances_middle_rotor :
    machineNotch.rotors.map Rotor.position = [0, 4, 0] ∧
    (machineNotch.rotors.getD 1 default).turnover = true ∧
    machineNotch.step.rotors.map Rotor.position = [1, 4, 1] ∧
    (stepN 3 machineNotch).rotors.map Rotor.position = [3, 4, 3] := by
  decide

/-- C5 (claim refuted by the code): a rotor configured at `('A', 'A')`
(position 0) and stepped once has position 1, but its `Rotor.copy` has
position 0 again — the clone re-runs `configure` and loses the current
position. -/
theorem rotor_copy_resets_position :
    ((rotorI.configure 'A' 'A').step).position = 1 ∧
    ((rotorI.configure 'A' 'A').step).copy.position = 0 := by
  decide

/-- C6 (claim refuted by the code): for crib `"A"` and ciphertext `"B"` the
maximal index `p = len(ciphertext) - len(crib) = 0` satisfies the crib
condition (and `is_crib_position` itself accepts it), yet
`find_crib_positions` returns the empty list: its loop
`range(len(ciphertext) - len(crib))` excludes the maximal index. -/
theorem find_crib_positions_misses_maximal_index :
    find_crib_positions ['A'] ['B'] = [] ∧
    is_crib_position ['A'] ['B'] 0 = true ∧
    crib_position_spec ['A'] ['B'] 0 := by
  decide

/-- C7 (claim refuted by the code): `configure` accepts the plugboard list
`[('A','B'), ('A','C')]` although `A` occurs in two pairs — the duplicate
test compares ints with letter pairs and never fires — and the installed
mapping is not an involution: `B ↦ A` (code 1 ↦ 0) but `A ↦ C` (code
0 ↦ 2). -/
theorem configure_accepts_duplicate_pairs :
    (match EnigmaMachine.configure [rotorI, rotorII, rotorIII] reflectorB
        [('A', 'B'), ('A', 'C')] with
      | .ok _ => true
      | .error _ => false) = true ∧
    pbLookup (mkMachine [rotorI, rotorII, rotorIII] reflectorB
        [('A', 'B'), ('A', 'C')]).plugboard_pairs 1 = 0 ∧
    pbLookup (mkMachine [rotorI, rotorII, rotorIII] reflectorB
        [('A', 'B'), ('A', 'C')]).plugboard_pairs
      (pbLookup (mkMachine [rotorI, rotorII, rotorIII] reflectorB
        [('A', 'B'), ('A', 'C')]).plugboard_pairs 1) ≠ 1 := by
  decide

/-- C8 (claim refuted by the code): on the single-edge menu `menuAB`
(crib `"AB"` in ciphertext `"BAX"`), `find_paths_dfs` emits exactly the walk
`A, B, A` — a degenerate two-step straight back along the edge just
traversed — because `back_connection` compares the one-letter connection
with the whole current path and is never true. -/
theorem find_paths_emits_degenerate_two_step :
    find_paths_dfs menuAB 30 [] = [['A', 'B', 'A']] ∧
    endsDegenerate ['A', 'B', 'A'] = true := by
  decide

/-- A rotor with `position` in `[0, 26)` returns to itself after
`step` then `unstep`. -/
theorem rotor_unstep_step (r : Rotor) (h0 : 0 ≤ r.position) (h1 : r.position < 26) :
    r.step.unstep = r := by
  cases r with
  | mk name letters tl w wi t rs off pos =>
    simp only [Rotor.step, Rotor.unstep, N, Rotor.mk.injEq, and_true, true_and]
    simp only at h0 h1
    omega

/-- The three-rotor well-formedness used by C2: exactly three rotors and
every position in `[0, 26)` (as `configure` establishes). -/
def ThreeRotors (m : EnigmaMachine) : Prop :=
  m.rotors.length = 3 ∧ ∀ r ∈ m.rotors, 0 ≤ r.position ∧ r.position < 26

instance (m : EnigmaMachine) : Decidable (ThreeRotors m) := by
  unfold ThreeRotors; infer_instance

/-- Machines with equal components are equal. -/
theorem machine_eq (m1 m2 : EnigmaMachine) (h1 : m1.rotors = m2.rotors)
    (h2 : m1.reflector = m2.reflector) (h3 : m1.plugboard_pairs = m2.plugboard_pairs)
    (h4 : m1.initial_rotors = m2.initial_rotors) : m1 = m2 := by
  cases m1
  cases m2
  simp_all

/-- On a three-rotor machine, `step` rewrites the rotor list to
`[fast.step, middle, leftmost (stepped iff the middle is at turnover)]`. -/
theorem step_rotors_three (m : EnigmaMachine) (a b c : Rotor) (hm : m.rotors = [a, b, c]) :
    m.step.rotors = [a.step, b, if b.turnover then c.step else c] := by
  simp only [EnigmaMachine.step, hm, List.length_cons, List.length_nil]
  norm_num [pyRangeDown]
  by_cases ht : b.turnover <;> simp [ht, List.set, List.getD]

/-- On a three-rotor machine, `unstep` rewrites the rotor list to
`[fast.unstep, middle, leftmost (unstepped iff the middle is at turnover)]`. -/
theorem unstep_rotors_three (m : EnigmaMachine) (a b c : Rotor) (hm : m.rotors = [a, b, c]) :
    m.unstep.rotors = [a.unstep, b, if b.turnover then c.unstep else c] := by
  simp only [EnigmaMachine.unstep, hm, List.length_cons, List.length_nil]
  norm_num [pyRangeDown]
  by_cases ht : b.turnover <;> simp [ht, List.set, List.getD]

/-- Python `unstep` inverts `step` on every well-formed three-rotor machine. -/
theorem unstep_step_three (m : EnigmaMachine) (h : ThreeRotors m) :
    m.step.unstep = m := by
  obtain ⟨h3, hb⟩ := h
  obtain ⟨a, b, c, hm⟩ := List.length_eq_three.mp h3
  have ha := hb a (by rw [hm]; simp)
  have hc := hb c (by rw [hm]; simp)
  apply machine_eq
  · have hs := step_rotors_three m a b c hm
    rw [unstep_rotors_three m.step a.step b (if b.turnover then c.step else c) hs, hm]
    by_cases ht : b.turnover <;>
      simp [ht, rotor_unstep_step a ha.1 ha.2, rotor_unstep_step c hc.1 hc.2]
  · rfl
  · rfl
  · rfl

/-- Python `step` preserves three-rotor well-formedness. -/
theorem step_preserves_three (m : EnigmaMachine) (h : ThreeRotors m) :
    ThreeRotors m.step := by
  obtain ⟨h3, hb⟩ := h
  obtain ⟨a, b, c, hm⟩ := List.length_eq_three.mp h3
  have hbm := hb b (by rw [hm]; simp)
  have hcm := hb c (by rw [hm]; simp)
  have hs := step_rotors_three m a b c hm
  constructor
  · rw [hs]; simp
  · intro r hr
    rw [hs] at hr
    simp only [List.mem_cons, List.not_mem_nil, or_false] at hr
    rcases hr with h | h | h
    · subst h
      simp only [Rotor.step, N]
      constructor <;> omega
    · subst h; exact hbm
    · subst h
      by_cases ht : b.turnover
      · simp only [ht, if_true] at *
        simp only [Rotor.step, N]
        constructor <;> omega
      · simp only [ht, if_false] at *
        exact hcm

/-- Python `stepN` preserves three-rotor well-formedness. -/
theorem stepN_preserves_three (n : Nat) (m : EnigmaMachine) (h : ThreeRotors m) :
    ThreeRotors (stepN n m) := by
  induction n with
  | zero => exact h
  | succ k ih => exact step_preserves_three _ ih

/-- Performing `n` unsteps after `n` steps restores the machine exactly. -/
theorem unstepN_stepN (n : Nat) (m : EnigmaMachine) (h : ThreeRotors m) :
    unstepN n (stepN n m) = m := by
  induction n with
  | zero => rfl
  | succ k ih =>
    have : unstepN (k + 1) (stepN (k + 1) m) = unstepN k ((stepN k m).step.unstep) := rfl
    rw [this, unstep_step_three _ (stepN_preserves_three k m h), ih]

/-- C2: on every configured three-rotor machine state (three rotors whose
positions lie in `[0, 26)`, as `configure` establishes), `N` `step()` calls
followed by `N` `unstep()` calls return every rotor's position to its value
before the first `step()`. -/
theorem stepN_unstepN_restores_positions (m : EnigmaMachine) (h : ThreeRotors m)
    (n : Nat) :
    (unstepN n (stepN n m)).rotors.map Rotor.position = m.rotors.map Rotor.position := by
  rw [unstepN_stepN n m h]

/-- Witness for C2 at the concrete machine `machineNotch` (whose middle
rotor sits at its turnover, exercising the leftmost-rotor branch) and
`N = 40`. -/
theorem stepN_unstepN_restores_positions_witness :
    (unstepN 40 (stepN 40 machineNotch)).rotors.map Rotor.position =
      machineNotch.rotors.map Rotor.position :=
  stepN_unstepN_restores_positions machineNotch (by decide) 40

/-- The signal returned by `signal_forward` lies in `[0, 26)`. -/
theorem signal_forward_bounds (r : Rotor) (s : Int) :
    0 ≤ (r.signal_forward s).2 ∧ (r.signal_forward s).2 < 26 := by
  simp only [Rotor.signal_forward, N]
  omega

/-- The signal returned by `signal_backward` lies in `[0, 26)`. -/
theorem signal_backward_bounds (r : Rotor) (s : Int) :
    0 ≤ (r.signal_backward s).2 ∧ (r.signal_backward s).2 < 26 := by
  simp only [Rotor.signal_backward, N]
  omega

/-- On a rotor whose wiring is a permutation, `signal_backward` undoes
`signal_forward`. -/
theorem rotor_backward_forward (r : Rotor) (h : r.Perm26) (s : Int)
    (h0 : 0 ≤ s) (h1 : s < 26) :
    (r.signal_backward (r.signal_forward s).2).2 = s := by
  obtain ⟨hw, _, hinv, _⟩ := h
  simp only [Rotor.signal_forward, Rotor.signal_backward, N]
  have hq0 : (0 : Int) ≤ (s + r.position) % 26 := Int.emod_nonneg _ (by norm_num)
  have hq1 : (s + r.position) % 26 < 26 := Int.emod_lt_of_pos _ (by norm_num)
  have hqn : ((s + r.position) % 26).toNat < 26 := by omega
  obtain ⟨ha0, ha1⟩ := hw _ hqn
  have h2 : ((r.wiring.getD ((s + r.position) % 26).toNat 0 - r.position) % 26
        + r.position) % 26
      = r.wiring.getD ((s + r.position) % 26).toNat 0 := by omega
  rw [h2, hinv _ hqn]
  omega

/-- On a rotor whose wiring is a permutation, `signal_forward` undoes
`signal_backward`. -/
theorem rotor_forward_backward (r : Rotor) (h : r.Perm26) (s : Int)
    (h0 : 0 ≤ s) (h1 : s < 26) :
    (r.signal_forward (r.signal_backward s).2).2 = s := by
  obtain ⟨_, hwi, _, hinv2⟩ := h
  simp only [Rotor.signal_forward, Rotor.signal_backward, N]
  have hq0 : (0 : Int) ≤ (s + r.position) % 26 := Int.emod_nonneg _ (by norm_num)
  have hq1 : (s + r.position) % 26 < 26 := Int.emod_lt_of_pos _ (by norm_num)
  have hqn : ((s + r.position) % 26).toNat < 26 := by omega
  obtain ⟨ha0, ha1⟩ := hwi _ hqn
  have h2 : ((r.wiring_inverse.getD ((s + r.position) % 26).toNat 0 - r.position) % 26
        + r.position) % 26
      = r.wiring_inverse.getD ((s + r.position) % 26).toNat 0 := by omega
  rw [h2, hinv2 _ hqn]
  omega

/-- Bounds for the forward rotor pass of `encrypt_lettercode`. -/
theorem foldl_forward_bounds (rs : List Rotor) (c : Int) (h0 : 0 ≤ c) (h1 : c < 26) :
    0 ≤ rs.foldl (fun c rotor => (rotor.signal_forward c).2) c ∧
      rs.foldl (fun c rotor => (rotor.signal_forward c).2) c < 26 := by
  induction rs generalizing c with
  | nil => exact ⟨h0, h1⟩
  | cons r t ih =>
    simp only [List.foldl_cons]
    exact ih _ (signal_forward_bounds r c).1 (signal_forward_bounds r c).2

/-- Bounds for the backward rotor pass of `encrypt_lettercode`. -/
theorem foldl_backward_bounds (rs : List Rotor) (c : Int) (h0 : 0 ≤ c) (h1 : c < 26) :
    0 ≤ rs.foldl (fun c rotor => (rotor.signal_backward c).2) c ∧
      rs.foldl (fun c rotor => (rotor.signal_backward c).2) c < 26 := by
  induction rs generalizing c with
  | nil => exact ⟨h0, h1⟩
  | cons r t ih =>
    simp only [List.foldl_cons]
    exact ih _ (signal_backward_bounds r c).1 (signal_backward_bounds r c).2

/-- The backward pass (rotors in reverse order) undoes the forward pass. -/
theorem pass_backward_forward (rs : List Rotor) (h : ∀ r ∈ rs, r.Perm26) (c : Int)
    (h0 : 0 ≤ c) (h1 : c < 26) :
    rs.reverse.foldl (fun c rotor => (rotor.signal_backward c).2)
      (rs.foldl (fun c rotor => (rotor.signal_forward c).2) c) = c := by
  induction rs generalizing c with
  | nil => rfl
  | cons r t ih =>
    simp only [List.foldl_cons, List.reverse_cons, List.foldl_append, List.foldl_nil]
    rw [ih (fun x hx => h x (List.mem_cons_of_mem _ hx)) _
      (signal_forward_bounds r c).1 (signal_forward_bounds r c).2]
    exact rotor_backward_forward r (h r (List.mem_cons_self _ _)) c h0 h1

/-- The forward pass undoes the backward pass. -/
theorem pass_forward_backward (rs : List Rotor) (h : ∀ r ∈ rs, r.Perm26) (c : Int)
    (h0 : 0 ≤ c) (h1 : c < 26) :
    rs.foldl (fun c rotor => (rotor.signal_forward c).2)
      (rs.reverse.foldl (fun c rotor => (rotor.signal_backward c).2) c) = c := by
  induction rs generalizing c with
  | nil => rfl
  | cons r t ih =>
    simp only [List.foldl_cons, List.reverse_cons, List.foldl_append, List.foldl_nil]
    rw [rotor_forward_backward r (h r (List.mem_cons_self _ _)) _
      (foldl_backward_bounds t.reverse c h0 h1).1 (foldl_backward_bounds t.reverse c h0 h1).2]
    exact ih (fun x hx => h x (List.mem_cons_of_mem _ hx)) c h0 h1

/-- Python `encrypt_lettercode` written as backward pass of reflect of forward pass. -/
theorem encrypt_lettercode_eq (m : EnigmaMachine) (c : Int) :
    m.encrypt_lettercode c =
      m.rotors.reverse.foldl (fun c rotor => (rotor.signal_backward c).2)
        (m.reflector.reflect
          (m.rotors.foldl (fun c rotor => (rotor.signal_forward c).2) c)) := rfl

/-- Python `encrypt_lettercode` maps `[0, 26)` into `[0, 26)` for a valid
reflector. -/
theorem encrypt_lettercode_bounds (m : EnigmaMachine) (hrefl : m.reflector.Valid)
    (c : Int) (h0 : 0 ≤ c) (h1 : c < 26) :
    0 ≤ m.encrypt_lettercode c ∧ m.encrypt_lettercode c < 26 := by
  rw [encrypt_lettercode_eq]
  have hy := foldl_forward_bounds m.rotors c h0 h1
  have hyn : (m.rotors.foldl (fun c rotor => (rotor.signal_forward c).2) c).toNat < 26 := by
    omega
  obtain ⟨hr0, hr1⟩ := hrefl.1 _ hyn
  simp only [Reflector.reflect]
  have h2 :
      m.reflector.reflections.getD
        (m.rotors.foldl (fun c rotor => (rotor.signal_forward c).2) c).toNat 0 =
      m.reflector.reflections.getD
        ((m.rotors.foldl (fun c rotor => (rotor.signal_forward c).2) c).toNat : Nat) 0 := rfl
  exact foldl_backward_bounds _ _ hr0 hr1

/-- Python `encrypt_lettercode` is an involution at a fixed valid machine state. -/
theorem encrypt_lettercode_invol (m : EnigmaMachine) (hrot : ∀ r ∈ m.rotors, r.Perm26)
    (hrefl : m.reflector.Valid) (c : Int) (h0 : 0 ≤ c) (h1 : c < 26) :
    m.encrypt_lettercode (m.encrypt_lettercode c) = c := by
  obtain ⟨hrb, hri, _⟩ := hrefl
  rw [encrypt_lettercode_eq, encrypt_lettercode_eq]
  have hy := foldl_forward_bounds m.rotors c h0 h1
  have hyn : (m.rotors.foldl (fun c rotor => (rotor.signal_forward c).2) c).toNat < 26 := by
    omega
  obtain ⟨hz0, hz1⟩ := hrb _ hyn
  simp only [Reflector.reflect]
  rw [pass_forward_backward m.rotors hrot _ hz0 hz1]
  rw [hri _ hyn, Int.toNat_of_nonneg hy.1]
  exact pass_backward_forward m.rotors hrot c h0 h1

/-- Python `encrypt_lettercode` has no fixed point at a fixed valid machine state. -/
theorem encrypt_lettercode_no_fixed_point (m : EnigmaMachine)
    (hrot : ∀ r ∈ m.rotors, r.Perm26) (hrefl : m.reflector.Valid) (c : Int)
    (h0 : 0 ≤ c) (h1 : c < 26) :
    m.encrypt_lettercode c ≠ c := by
  obtain ⟨hrb, _, hrn⟩ := hrefl
  intro hEq
  rw [encrypt_lettercode_eq] at hEq
  have hy := foldl_forward_bounds m.rotors c h0 h1
  have hyn : (m.rotors.foldl (fun c rotor => (rotor.signal_forward c).2) c).toNat < 26 := by
    omega
  obtain ⟨hz0, hz1⟩ := hrb _ hyn
  have h2 := congrArg
    (fun x => m.rotors.foldl (fun c rotor => (rotor.signal_forward c).2) x) hEq
  simp only [Reflector.reflect] at h2
  rw [pass_forward_backward m.rotors hrot _ hz0 hz1] at h2
  have hne := hrn _ hyn
  rw [Int.toNat_of_nonneg hy.1] at hne
  exact hne h2

/-- C4: at every valid machine state held fixed (wiring permutations,
fixed-point-free involutive reflector, involutive plugboard — the data-model
invariants `configure` establishes), the per-letter encryption
(plugboard, forward pass, reflector, backward pass, plugboard) applied
twice returns the letter, and applied once never returns the letter itself. -/
theorem encrypt1_involution_no_fixed_point (m : EnigmaMachine) (h : m.Valid)
    (c : Int) (h0 : 0 ≤ c) (h1 : c < 26) :
    encrypt1 m (encrypt1 m c) = c ∧ encrypt1 m c ≠ c := by
  obtain ⟨hrot, hrefl, hpb⟩ := h
  have pb : ∀ x : Int, 0 ≤ x → x < 26 →
      0 ≤ pbLookup m.plugboard_pairs x ∧ pbLookup m.plugboard_pairs x < 26 ∧
        pbLookup m.plugboard_pairs (pbLookup m.plugboard_pairs x) = x := by
    intro x hx0 hx1
    have hx := hpb x.toNat (by omega)
    rwa [Int.toNat_of_nonneg hx0] at hx
  obtain ⟨hd0, hd1, hdd⟩ := pb c h0 h1
  have hel := encrypt_lettercode_bounds m hrefl _ hd0 hd1
  obtain ⟨he0, he1, hee⟩ := pb _ hel.1 hel.2
  constructor
  · simp only [encrypt1]
    rw [hee, encrypt_lettercode_invol m hrot hrefl _ hd0 hd1, hdd]
  · simp only [encrypt1]
    intro hbad
    have h4 := congrArg (pbLookup m.plugboard_pairs) hbad
    rw [hee] at h4
    exact encrypt_lettercode_no_fixed_point m hrot hrefl _ hd0 hd1 h4

/-- Witness for C4 at the concrete machine `machineAAA` and letter code 0. -/
theorem encrypt1_involution_no_fixed_point_witness :
    encrypt1 machineAAA (encrypt1 machineAAA 0) = 0 ∧ encrypt1 machineAAA 0 ≠ 0 :=
  encrypt1_involution_no_fixed_point machineAAA (by decide) 0 (by decide) (by decide)

/-- Python `possAppend` only appends: existing members of every key's list are
preserved. -/
theorem possAppend_mem (poss : List (List (Char × Char) × List (List Char)))
    (k : List (Char × Char)) (v : List Char) (K : List (Char × Char))
    (x : List Char) (h : x ∈ possLookup poss K) :
    x ∈ possLookup (possAppend poss k v) K := by
  induction poss with
  | nil => simp [possLookup] at h
  | cons e rest ih =>
    by_cases h1 : e.1 = k
    · simp only [possAppend, if_pos h1]
      by_cases h2 : e.1 = K
      · simp only [possLookup, if_pos h2] at h ⊢
        exact List.mem_append_left _ h
      · simp only [possLookup, if_neg h2] at h ⊢
        exact h
    · simp only [possAppend, if_neg h1]
      by_cases h2 : e.1 = K
      · simp only [possLookup, if_pos h2] at h ⊢
        exact h
      · simp only [possLookup, if_neg h2] at h ⊢
        exact ih h

/-- A single plugboard guess only appends to `possibilities`. -/
theorem bombeGuessStep_mem (menu : Menu) (menu_paths : List (List Char))
    (rotor_offsets : List Char) (cst : CellState) (g : Char)
    (K : List (Char × Char)) (x : List Char) (h : x ∈ possLookup cst.poss K) :
    x ∈ possLookup (bombeGuessStep menu menu_paths rotor_offsets cst g).poss K := by
  unfold bombeGuessStep
  dsimp only
  split
  · exact possAppend_mem _ _ _ _ _ h
  · exact h

/-- Folding guesses only appends to `possibilities`. -/
theorem guessFold_mem (menu : Menu) (menu_paths : List (List Char))
    (rotor_offsets : List Char) (gs : List Char) (cst : CellState)
    (K : List (Char × Char)) (x : List Char) (h : x ∈ possLookup cst.poss K) :
    x ∈ possLookup
      ((gs.foldl (bombeGuessStep menu menu_paths rotor_offsets) cst)).poss K := by
  induction gs generalizing cst with
  | nil => exact h
  | cons g t ih =>
    exact ih _ (bombeGuessStep_mem menu menu_paths rotor_offsets cst g K x h)

/-- One rotor-offsets cell only appends to `possibilities`. -/
theorem bombeCell_mem (ring_settings : List Char) (menu : Menu)
    (menu_paths : List (List Char))
    (acc : EnigmaMachine × List (List (Char × Char) × List (List Char)))
    (rotor_offsets : List Char) (K : List (Char × Char)) (x : List Char)
    (h : x ∈ possLookup acc.2 K) :
    x ∈ possLookup (bombeCell ring_settings menu menu_paths acc rotor_offsets).2 K := by
  unfold bombeCell
  dsimp only
  exact guessFold_mem _ _ _ _ _ _ _ h

/-- Folding rotor-offsets cells only appends to `possibilities`. -/
theorem cellFold_mem (ring_settings : List Char) (menu : Menu)
    (menu_paths : List (List Char)) (l : List (List Char))
    (acc : EnigmaMachine × List (List (Char × Char) × List (List Char)))
    (K : List (Char × Char)) (x : List Char) (h : x ∈ possLookup acc.2 K) :
    x ∈ possLookup
      ((l.foldl (bombeCell ring_settings menu menu_paths) acc)).2 K := by
  induction l generalizing acc with
  | nil => exact h
  | cons o t ih =>
    exact ih _ (bombeCell_mem ring_settings menu menu_paths acc o K x h)

/-- Processing the first rotor-offsets cell `AAA` records the start triple
`AAA` under the plugboard candidate `plugKey0` (guess `A` survives every
path of the `menuABC` fixture). -/
theorem first_cell_records_AAA :
    ['A', 'A', 'A'] ∈
      possLookup
        (bombeCell ['A', 'A', 'A'] menuABC pathsABC (machineAAA, []) ['A', 'A', 'A']).2
        plugKey0 := by
  decide

/-- The start triple `AAA` is recorded under `plugKey0` in the full
`Bombe.run` result on the `menuABC` fixture. -/
theorem run_records_AAA :
    ['A', 'A', 'A'] ∈
      possLookup (Bombe.run machineAAA ['A', 'A', 'A'] menuABC pathsABC).2 plugKey0 := by
  have hsplit : rotor_offset_combinations
      = ['A', 'A', 'A'] :: rotor_offset_combinations.tail := rfl
  unfold Bombe.run
  rw [hsplit, List.foldl_cons]
  exact cellFold_mem _ _ _ _ _ _ _ first_cell_records_AAA

/-- C3 (claim refuted by the code): on the realistic fixture — machine with
rotors I, II, III and reflector B, ring settings `AAA`, the menu of crib
`"ABC"` in ciphertext `"BCAX"` and its `find_paths_dfs` paths — `Bombe.run`
records the candidate plugboard `plugKey0` with start triple `AAA`, yet the
menu edge joining `B` and `C` at offset 1 does not decrypt correctly under
that configuration: the Bombe leaves each path at its first consistent
closure and never checks the remaining edges (and `reset()` discards the
guessed rotor offsets entirely), so unsound candidates survive. -/
theorem bombe_run_returns_unsound_candidate :
    ¬ BombeRunSound machineAAA ['A', 'A', 'A'] menuABC pathsABC := by
  intro h
  have hedge : menuHasEdge menuABC 'B' 'C' 1 := by decide
  have hbad := h plugKey0 ['A', 'A', 'A'] run_records_AAA 'B' 'C' 1 hedge
  revert hbad
  decide
